import Mathlib

/-!
Verification of the DSH `MIfile` component (src/DSH/MIfile.py): a multi-image
binary store with region/range validators, chunked writes and a merge utility.

Conventions of the embedding:
* A file is a `List Nat` of bytes (each `< 256`).
* A pixel value is represented by its fixed-width byte pattern read as a
  little-endian natural number (`struct.pack`/`struct.unpack` is a bijection
  between depth-byte strings and values for every fixed-width format code,
  so equality of values coincides with equality of these patterns).
* Python exceptions become the `MIError` sum type carried in `Except`.
* Python lists mutated in place are modelled either purely (the function
  returns the new contents) or, where object identity matters, through an
  explicit heap (`List (List Int)`) with index-valued references.
* `sys.getsizeof` results are abstract inputs (they depend on the memory
  layout of the interpreter), passed to `writeData` as explicit parameters.
-/

set_option autoImplicit false

namespace MIfile

/-- Decidable equality for `Except`, so concrete runs of the model can be
checked by `decide`. -/
instance {ε α : Type} [DecidableEq ε] [DecidableEq α] : DecidableEq (Except ε α) :=
  fun a b =>
    match a, b with
    | .error e, .error f =>
      if h : e = f then .isTrue (h ▸ rfl) else .isFalse fun hc => h (by injection hc)
    | .ok x, .ok y =>
      if h : x = y then .isTrue (h ▸ rfl) else .isFalse fun hc => h (by injection hc)
    | .error _, .ok _ => .isFalse fun hc => by injection hc
    | .ok _, .error _ => .isFalse fun hc => by injection hc

/-- Pixel format tags, the keys of `_data_depth` / `_data_types`
(`'b' 'B' '?' 'h' 'H' 'i' 'I' 'f' 'd'`); `qm` stands for `'?'`. -/
inductive PxFormat where
  | b | B | qm | h | H | i | I | f | d
  deriving DecidableEq, Repr

/-- Model of the `_data_depth` dictionary: bytes per pixel for each format. -/
def data_depth : PxFormat → Nat
  | .b => 1 | .B => 1 | .qm => 1
  | .h => 2 | .H => 2
  | .i => 4 | .I => 4 | .f => 4
  | .d => 8

/-- Numpy element types, the values of the `_data_types` dictionary. -/
inductive NpDType where
  | npInt8 | npUInt8 | npBool | npInt16 | npUInt16
  | npInt32 | npUInt32 | npFloat32 | npFloat64
  deriving DecidableEq, Repr

/-- Model of the `_data_types` dictionary. -/
def data_types : PxFormat → NpDType
  | .b => .npInt8 | .B => .npUInt8 | .qm => .npBool
  | .h => .npInt16 | .H => .npUInt16
  | .i => .npInt32 | .I => .npUInt32
  | .f => .npFloat32 | .d => .npFloat64

/-- Exceptions raised by the source, as a structured sum: `eofError` is the
IOError of `_read_pixels` (carrying the seek offset, the requested and the
actually returned byte counts that its message names); `rangeError i` is the
`AssertionError` of `ValidateROI` (argument index `i` names which bound
failed); `shapeMismatch`/`formatMismatch` are the IOErrors of `MergeMIfiles`;
`oversizedWrite` is the IOError of `WriteData`; the remaining constructors
model the Python `IndexError` / `ZeroDivisionError` / `ValueError` crashes on
degenerate inputs. -/
inductive MIError where
  | eofError (seekPos requested actual : Nat)
  | rangeError (argIdx : Nat)
  | shapeMismatch (outShape curShape : List Nat) (axis : Nat)
  | formatMismatch
  | oversizedWrite
  | indexError
  | zeroDivError
  | valueError
  deriving DecidableEq, Repr

/-- Mismatch errors of `MergeMIfiles` (shape or pixel-format IOError). -/
def MIError.isMismatch : MIError → Bool
  | .shapeMismatch _ _ _ => true
  | .formatMismatch => true
  | _ => false

/-! ### Byte-level serialization (`struct.pack` / `struct.unpack`) -/

/-- Little-endian byte string of width `d` for the value `v`
(the byte pattern `struct.pack` produces for a fixed-width value). -/
def natToBytes : Nat → Nat → List Nat
  | 0, _ => []
  | d + 1, v => v % 256 :: natToBytes d (v / 256)

/-- Value of a little-endian byte string (what `struct.unpack` recovers). -/
def bytesToNat : List Nat → Nat
  | [] => 0
  | byte :: bs => byte + 256 * bytesToNat bs

/-- One pixel serialized at its format width. -/
def encodePixel (fmt : PxFormat) (v : Nat) : List Nat :=
  natToBytes (data_depth fmt) v

/-- Model of `_imgs_to_bytes` on an already-flattened value run:
`struct.pack(('%s' + fmt) % len(data), *data)`. -/
def packPixels (fmt : PxFormat) : List Nat → List Nat
  | [] => []
  | v :: vs => encodePixel fmt v ++ packPixels fmt vs

/-- Decode `n` fixed-width pixels from a byte run (`struct.unpack`). -/
def decodeRun (fmt : PxFormat) : Nat → List Nat → List Nat
  | 0, _ => []
  | n + 1, bs =>
    bytesToNat (bs.take (data_depth fmt)) :: decodeRun fmt n (bs.drop (data_depth fmt))

theorem natToBytes_length (d v : Nat) : (natToBytes d v).length = d := by
  induction d generalizing v with
  | zero => rfl
  | succ d ih => simp [natToBytes, ih]

theorem bytesToNat_natToBytes (d v : Nat) (hv : v < 256 ^ d) :
    bytesToNat (natToBytes d v) = v := by
  induction d generalizing v with
  | zero =>
    interval_cases v
    rfl
  | succ d ih =>
    have hdiv : v / 256 < 256 ^ d := by
      rw [Nat.div_lt_iff_lt_mul (by norm_num : 0 < 256)]
      calc v < 256 ^ (d + 1) := hv
        _ = 256 ^ d * 256 := by rw [pow_succ]
    simp only [natToBytes, bytesToNat, ih (v / 256) hdiv]
    omega

theorem packPixels_append (fmt : PxFormat) (a b : List Nat) :
    packPixels fmt (a ++ b) = packPixels fmt a ++ packPixels fmt b := by
  induction a with
  | nil => rfl
  | cons x xs ih => simp [packPixels, ih]

theorem packPixels_length (fmt : PxFormat) (vs : List Nat) :
    (packPixels fmt vs).length = vs.length * data_depth fmt := by
  induction vs with
  | nil => simp [packPixels]
  | cons v vs ih =>
    simp [packPixels, ih, natToBytes_length, encodePixel, Nat.succ_mul, Nat.add_comm]

theorem decodeRun_packPixels (fmt : PxFormat) (vs : List Nat)
    (hv : ∀ v ∈ vs, v < 256 ^ data_depth fmt) :
    decodeRun fmt vs.length (packPixels fmt vs) = vs := by
  induction vs with
  | nil => rfl
  | cons v vs ih =>
    have hlen : (encodePixel fmt v).length = data_depth fmt := natToBytes_length _ _
    simp only [List.length_cons, decodeRun, packPixels, ← hlen, List.take_left,
      List.drop_left]
    rw [show bytesToNat (encodePixel fmt v) = v from
        bytesToNat_natToBytes _ _ (hv v (by simp)),
      ih fun x hx => hv x (by simp [hx])]

/-! ### Region/Range Validator -/

/-- Model of the module-level `ValidateROI(ROI, ImageShape)` on a non-`None`
ROI list, with `ImageShape = [rows, cols]`. Mirrors src lines 107-116:
bound assertions on the two corner coordinates, resolution of negative
width/height, then the two rectangle-containment assertions. Lists shorter
than 4 crash in Python with `IndexError`. -/
def ValidateROI (ROI : List Int) (rows cols : Nat) : Except MIError (List Int) :=
  match ROI with
  | l :: t :: w :: h :: rest =>
    if ¬(0 ≤ l ∧ l < (cols : Int)) then .error (.rangeError 0)
    else if ¬(0 ≤ t ∧ t < (rows : Int)) then .error (.rangeError 1)
    else
      let w2 := if w < 0 then (cols : Int) - l else w
      let h2 := if h < 0 then (rows : Int) - t else h
      if ¬(w2 + l ≤ (cols : Int)) then .error (.rangeError 2)
      else if ¬(h2 + t ≤ (rows : Int)) then .error (.rangeError 3)
      else .ok (l :: t :: w2 :: h2 :: rest)
  | _ => .error .indexError

/-- Model of `Validate_zRange(zRange, zSize)` with the default
`replaceNone=True` used at every modelled call site: `None` becomes
`[0, zSize, 1]`; otherwise a negative end index is replaced by `zSize` and a
missing step is appended. Lists shorter than 2 crash (`zRange[1]`). -/
def Validate_zRange (zRange : Option (List Int)) (zSize : Nat) :
    Except MIError (List Int) :=
  match zRange with
  | none => .ok [0, (zSize : Int), 1]
  | some (a :: bEnd :: rest) =>
    let b2 := if bEnd < 0 then (zSize : Int) else bEnd
    let zr := a :: b2 :: rest
    .ok (if zr.length < 3 then zr ++ [1] else zr)
  | some _ => .error .indexError

/-- Heap-passing model of `ValidateROI` making the Python list mutations
explicit: the ROI argument is a reference `r` into `heap`, the two
`ROI[2] = ...` / `ROI[3] = ...` assignments update the heap cell, and the
function returns the (possibly updated) heap together with the reference it
returns (`return ROI`). -/
def ValidateROIref (heap : List (List Int)) (r : Nat) (rows cols : Nat) :
    Except MIError (List (List Int) × Nat) :=
  match heap.get? r with
  | none => .error .indexError
  | some roi =>
    match roi with
    | l :: t :: w :: h :: rest =>
      if ¬(0 ≤ l ∧ l < (cols : Int)) then .error (.rangeError 0)
      else if ¬(0 ≤ t ∧ t < (rows : Int)) then .error (.rangeError 1)
      else
        let w2 := if w < 0 then (cols : Int) - l else w
        let heap1 := if w < 0 then heap.set r (l :: t :: w2 :: h :: rest) else heap
        let h2 := if h < 0 then (rows : Int) - t else h
        let heap2 := if h < 0 then heap1.set r (l :: t :: w2 :: h2 :: rest) else heap1
        if ¬(w2 + l ≤ (cols : Int)) then .error (.rangeError 2)
        else if ¬(h2 + t ≤ (rows : Int)) then .error (.rangeError 3)
        else .ok (heap2, r)
    | _ => .error .indexError

/-- Heap-passing model of `Validate_zRange` on a non-`None` argument:
`zRange[1] = zSize` and `zRange.append(1)` update the heap cell in place and
the function returns the same reference. -/
def Validate_zRangeRef (heap : List (List Int)) (r : Nat) (zSize : Nat) :
    Except MIError (List (List Int) × Nat) :=
  match heap.get? r with
  | none => .error .indexError
  | some zr =>
    match zr with
    | a :: bEnd :: rest =>
      let b2 := if bEnd < 0 then (zSize : Int) else bEnd
      let heap1 := if bEnd < 0 then heap.set r (a :: b2 :: rest) else heap
      let zr1 := a :: b2 :: rest
      if zr1.length < 3 then .ok (heap1.set r (zr1 ++ [1]), r)
      else .ok (heap1, r)
    | _ => .error .indexError

/-! ### Multi-Image Store -/

/-- Immutable descriptor of an `MIfile` instance, the fields `_load_metadata`
derives from the metadata: `hdrSize`, the three components of `Shape`
(`ImgNumber`, `ImgHeight`, `ImgWidth`), `PixelFormat` and `MaxBufferSize`.
`PixelDepth`, `PixelDataType` and `PxPerImg` are the pure caches
`data_depth`/`data_types`/`ImgHeight * ImgWidth` below. -/
structure MIStore where
  hdrSize : Nat
  ImgNumber : Nat
  ImgHeight : Nat
  ImgWidth : Nat
  PixelFormat : PxFormat
  MaxBufferSize : Nat
  deriving DecidableEq, Repr

/-- The cached `self.PxPerImg = self.ImgHeight * self.ImgWidth`. -/
def MIStore.PxPerImg (s : MIStore) : Nat := s.ImgHeight * s.ImgWidth

/-- Model of `_get_offset(img_idx, row_idx, col_idx)`. -/
def getOffset (s : MIStore) (img_idx row_idx col_idx : Nat) : Nat :=
  s.hdrSize + (img_idx * s.PxPerImg + row_idx * s.ImgWidth + col_idx) * data_depth s.PixelFormat

/-- A 3D numpy result `[num_images, height, width]`, kept as its shape plus
the row-major flattened pixel data. -/
structure Arr3 where
  imgs : Nat
  height : Nat
  width : Nat
  data : List Nat
  deriving DecidableEq, Repr

/-- A 2D numpy result `[height, width]`. -/
structure Arr2 where
  height : Nat
  width : Nat
  data : List Nat
  deriving DecidableEq, Repr

/-- Model of `_read_pixels(px_num, seek_pos)`: seek, read
`px_num * PixelDepth` bytes, raise the end-of-file IOError (naming the
requested and actually obtained byte counts) when the file yields fewer,
otherwise `struct.unpack` the run. All modelled call sites pass an explicit
seek offset. -/
def readPixels (s : MIStore) (file : List Nat) (px_num seek_pos : Nat) :
    Except MIError (List Nat) :=
  let bytes_to_read := px_num * data_depth s.PixelFormat
  let fileContent := (file.drop seek_pos).take bytes_to_read
  if fileContent.length < bytes_to_read then
    .error (.eofError seek_pos bytes_to_read fileContent.length)
  else .ok (decodeRun s.PixelFormat px_num fileContent)

/-- Model of `GetStack(start_idx, imgs_num)`: a negative `imgs_num` means
read to the declared end; one bulk `_read_pixels` call reshaped to 3D. -/
def getStack (s : MIStore) (file : List Nat) (start_idx : Nat) (imgs_num : Int) :
    Except MIError Arr3 :=
  let n : Nat := if imgs_num < 0 then s.ImgNumber - start_idx else imgs_num.toNat
  match readPixels s file (n * s.PxPerImg) (getOffset s start_idx 0 0) with
  | .error e => .error e
  | .ok px => .ok ⟨n, s.ImgHeight, s.ImgWidth, px⟩

/-- Error-propagating map over a list (the shape of the Python loops that
accumulate per-row / per-frame reads, where the first raised exception
aborts the whole operation). -/
def mapEx {α β : Type} (fn : α → Except MIError β) : List α → Except MIError (List β)
  | [] => .ok []
  | x :: xs =>
    match fn x with
    | .error e => .error e
    | .ok y =>
      match mapEx fn xs with
      | .error e => .error e
      | .ok ys => .ok (y :: ys)

/-- Model of `list(range(start, stop, step))` for a nonzero step. -/
def pyRange (start stop step : Int) : List Int :=
  if 0 < step then
    (List.range ((stop - start + step - 1) / step).toNat).map fun k => start + k * step
  else if step < 0 then
    (List.range ((start - stop - step - 1) / (-step)).toNat).map fun k => start + k * step
  else []

/-- Model of `GetImage(img_idx, cropROI)`: without ROI, one-frame `GetStack`
reshaped to 2D; with ROI, after validation either one contiguous read (full
row width) or one read per selected row. Negative coordinates cannot survive
validation, so `Int.toNat` on the validated entries is exact. -/
def getImage (s : MIStore) (file : List Nat) (img_idx : Nat) (cropROI : Option (List Int)) :
    Except MIError Arr2 :=
  match cropROI with
  | none =>
    match getStack s file img_idx 1 with
    | .error e => .error e
    | .ok a => .ok ⟨s.ImgHeight, s.ImgWidth, a.data⟩
  | some roi =>
    match ValidateROI roi s.ImgHeight s.ImgWidth with
    | .error e => .error e
    | .ok roi2 =>
      match roi2 with
      | l :: t :: w :: h :: _ =>
        if l = 0 ∧ w = (s.ImgWidth : Int) then
          match readPixels s file (w.toNat * h.toNat) (getOffset s img_idx t.toNat l.toNat) with
          | .error e => .error e
          | .ok px => .ok ⟨h.toNat, w.toNat, px⟩
        else
          match mapEx
              (fun row => readPixels s file w.toNat (getOffset s img_idx row l.toNat))
              ((List.range h.toNat).map fun k => t.toNat + k) with
          | .error e => .error e
          | .ok rows => .ok ⟨h.toNat, w.toNat, rows.flatten⟩
      | _ => .error .indexError

/-- Model of `Read(zRange, cropROI)`: normalize the range; step 1 and no ROI
delegates to `GetStack`, otherwise one `GetImage` per index of the range,
stacked into a 3D array. A zero step or a negative index would crash Python
(`range` ValueError / negative seek); both are modelled as `valueError`. -/
def readMI (s : MIStore) (file : List Nat) (zRange : Option (List Int))
    (cropROI : Option (List Int)) : Except MIError Arr3 :=
  match Validate_zRange zRange s.ImgNumber with
  | .error e => .error e
  | .ok zr =>
    match zr with
    | z0 :: z1 :: z2 :: _ =>
      if z2 = 1 ∧ cropROI = none then
        if z0 < 0 then .error .valueError
        else getStack s file z0.toNat (z1 - z0)
      else if z2 = 0 then .error .valueError
      else
        match mapEx
            (fun (idx : Int) => if idx < 0 then .error .valueError
                        else getImage s file idx.toNat cropROI)
            (pyRange z0 z1 z2) with
        | .error e => .error e
        | .ok frames =>
          .ok ⟨frames.length, (frames.headD ⟨0, 0, []⟩).height,
               (frames.headD ⟨0, 0, []⟩).width, (frames.map Arr2.data).flatten⟩
    | _ => .error .indexError

/-- Result of `GetTimetraces`: `np.empty((len(pxLocs), len(list_z)))` fixes
the element type to numpy's default `float64` independently of the store's
pixel format; every supported pixel value (integers of at most 32 bits,
booleans, and float bit patterns) is exactly representable after the
assignment cast, so entries are kept at their exact values. `flat` records
the final single-location flatten. -/
structure TTRes where
  dtype : NpDType
  rows : List (List Nat)
  flat : Bool
  deriving DecidableEq, Repr

/-- Model of `GetTimetraces(pxLocs, zRange)`: one single-pixel seek+read per
(location, frame) sample, filling a `float64` matrix. `pxLocs` is taken
already in list-of-(row, col) form (the Python type sniffing that wraps a
bare single location is dynamic typing glue); an empty location list crashes
(`pxLocs[0]`), a normalized range not of length 3 crashes at
`range(*...)`. -/
def getTimetraces (s : MIStore) (file : List Nat) (pxLocs : List (Nat × Nat))
    (zRange : Option (List Int)) : Except MIError TTRes :=
  match Validate_zRange zRange s.ImgNumber with
  | .error e => .error e
  | .ok zr =>
    match zr with
    | [z0, z1, z2] =>
      if z2 = 0 then .error .valueError
      else
        match pxLocs with
        | [] => .error .indexError
        | _ =>
          match mapEx
              (fun loc => mapEx
                (fun (z : Int) =>
                  if z < 0 then .error .valueError
                  else
                    match readPixels s file 1 (getOffset s z.toNat loc.1 loc.2) with
                    | .error e => .error e
                    | .ok px => .ok (px.headD 0))
                (pyRange z0 z1 z2))
              pxLocs with
          | .error e => .error e
          | .ok rows => .ok ⟨.npFloat64, rows, decide (pxLocs.length = 1)⟩
    | _ => .error .valueError

/-! ### Writing -/

/-- The read/write handle slots of an `MIfile` instance (the only mutable
state besides file contents); a handle is modelled by an identifying `Nat`. -/
structure MIHandles where
  ReadFileHandle : Option Nat
  WriteFileHandle : Option Nat
  deriving DecidableEq, Repr

/-- Model of `Close(read, write)` exactly as the source body has it: the
`read` flag gates the release of `WriteFileHandle` and the `write` flag gates
the release of `ReadFileHandle` (src lines 327-333). -/
def closeMI (s : MIHandles) (read write : Bool) : MIHandles :=
  let s1 := if read ∧ s.WriteFileHandle.isSome then
      { s with WriteFileHandle := none } else s
  if write ∧ s1.ReadFileHandle.isSome then
    { s1 with ReadFileHandle := none } else s1

/-- Successive slices `data[i : i + k]` taken by the `WriteData` buffering
loop `for i in range(0, len(data_arr), xsec_per_buffer)`, written with an
explicit fuel argument so the kernel can evaluate it (for `k ≥ 1` every
iteration consumes at least one element, so fuel `l.length` suffices and the
exhausted-fuel branch is unreachable); note `(x :: xs).drop k = xs.drop (k - 1)`
for `k ≥ 1`. -/
def chunksOfAux {α : Type} : Nat → Nat → List α → List (List α)
  | _, _, [] => []
  | 0, _, l => [l]
  | fuel + 1, k, x :: xs => (x :: xs).take k :: chunksOfAux fuel k (xs.drop (k - 1))

/-- The chunk list `[data[0:k], data[k:2k], ...]` of the buffering loop. -/
def chunksOf {α : Type} (k : Nat) (l : List α) : List (List α) :=
  chunksOfAux l.length k l

/-- Model of `WriteData(data_arr)` (src lines 310-325), returning the
successive flattened element runs handed to `_imgs_to_bytes` (one per
`write` call). `data_arr` is the list of its outermost-axis sub-arrays, each
already flattened row-major; `sizeTotal` and `sizeFrame` stand for the
machine-dependent `sys.getsizeof(data_arr)` and `sys.getsizeof(data_arr[0])`.
An empty array crashes at `data_arr[0]` and a zero-element first frame
crashes at the `//` (ZeroDivisionError), as in Python. -/
def writeData (s : MIStore) (sizeTotal sizeFrame : Nat) (data_arr : List (List Nat)) :
    Except MIError (List (List Nat)) :=
  if s.MaxBufferSize < sizeTotal then
    match data_arr with
    | [] => .error .indexError
    | f0 :: _ =>
      if s.MaxBufferSize < sizeFrame then .error .oversizedWrite
      else
        let n_elem_xsec := f0.length
        if n_elem_xsec = 0 then .error .zeroDivError
        else
          let xsec_per_buffer := max 1 (s.MaxBufferSize / n_elem_xsec)
          .ok ((chunksOf xsec_per_buffer data_arr).map List.flatten)
  else .ok [data_arr.flatten]

/-- Byte content of the output file after `WriteData` on a freshly opened
(`'wb'`, truncating) write handle: each chunk serialized by
`_imgs_to_bytes` and appended in order. -/
def writeFile (s : MIStore) (sizeTotal sizeFrame : Nat) (data_arr : List (List Nat)) :
    Except MIError (List Nat) :=
  match writeData s sizeTotal sizeFrame data_arr with
  | .error e => .error e
  | .ok chunks => .ok ((chunks.map (packPixels s.PixelFormat)).flatten)

/-! ### Merge -/

/-- The copy step of the `MergeMIfiles` metadata loop taken when
`out_meta['shape'][1] == 0`: `for ax in range(len(cur_MIshape)): if
ax != MergeAxis: out_meta['shape'][ax] = cur_MIshape[ax]`. -/
def copyNonAxis (axis : Nat) (sh shp : List Nat) : List Nat :=
  (List.range shp.length).foldl
    (fun acc ax => if ax ≠ axis then acc.set ax (shp.getD ax 0) else acc) sh

/-- The mismatch test of the `MergeMIfiles` metadata loop: some non-merge
axis of the accumulated shape differs from the current input's shape. -/
def checkMismatch (axis : Nat) (sh shp : List Nat) : Bool :=
  (List.range shp.length).any fun ax => ax ≠ axis ∧ sh.getD ax 0 ≠ shp.getD ax 0

/-- One iteration of the `MergeMIfiles` metadata loop (src lines 41-65) over
an accumulator of (output shape, output pixel format): add the merge-axis
extent, then either initialize the other axes and the format (the loop
treats `shape[1] == 0` as "this is the first input") or check them,
raising the shape-mismatch / format-mismatch IOErrors. -/
def mergeStep (axis : Nat) (acc : List Nat × Option PxFormat)
    (cur : List Nat × PxFormat) : Except MIError (List Nat × Option PxFormat) :=
  let sh1 := acc.1.set axis (acc.1.getD axis 0 + cur.1.getD axis 0)
  if sh1.getD 1 0 = 0 then
    .ok (copyNonAxis axis sh1 cur.1, some cur.2)
  else
    if checkMismatch axis sh1 cur.1 then .error (.shapeMismatch sh1 cur.1 axis)
    else if ¬(acc.2 = some cur.2) then .error .formatMismatch
    else .ok (sh1, acc.2)

/-- The full metadata loop, folded over the input descriptors with the first
raised error aborting the merge. -/
def mergeAccum (axis : Nat) : List (List Nat × PxFormat) →
    (List Nat × Option PxFormat) → Except MIError (List Nat × Option PxFormat)
  | [], acc => .ok acc
  | x :: xs, acc =>
    match mergeStep axis acc x with
    | .error e => .error e
    | .ok acc2 => mergeAccum axis xs acc2

/-- Metadata accumulation of `MergeMIfiles` starting from the literal
initial `out_meta` (`shape = [0, 0, 0]`, `px_format = None`). The merge axis
is taken already resolved to a non-negative index. -/
def mergeMeta (axis : Nat) (inputs : List (List Nat × PxFormat)) :
    Except MIError (List Nat × Option PxFormat) :=
  mergeAccum axis inputs ([0, 0, 0], none)

/-- An input store of `MergeMIfiles`: its declared shape, pixel format, and
the data its `Read(closeAfter=True)` yields. -/
structure MIInput where
  shape : List Nat
  fmt : PxFormat
  content : List Nat
  deriving DecidableEq, Repr

/-- Model of `MergeMIfiles` (src lines 41-90, `FinalShape=None`), returning
the successive data blocks written to the output store in order. Metadata
accumulation runs first; an error there means nothing is written. Merging
along axis 0 streams each input's `Read` in list order. For any other axis
the code seeds `write_data` from `mi_in_list[0]` and then, in every loop
iteration, appends `cur_mifile.Read(...)` — but `cur_mifile` is the stale
variable of the earlier metadata loop, i.e. the LAST element of the input
list, not `mi_in_list[midx]`; the model reproduces that faithfully. -/
def mergeMI (axis : Nat) (inputs : List MIInput) : Except MIError (List (List Nat)) :=
  match mergeMeta axis (inputs.map fun i => (i.shape, i.fmt)) with
  | .error e => .error e
  | .ok _ =>
    if axis = 0 then .ok (inputs.map MIInput.content)
    else
      match inputs with
      | [] => .error .indexError
      | i0 :: rest =>
        .ok (i0.content ::
          rest.map fun _ => ((i0 :: rest).getLast (List.cons_ne_nil i0 rest)).content)

/-! ### Helper lemmas -/

theorem chunksOfAux_flatten {α : Type} (k : Nat) (hk : 1 ≤ k) :
    ∀ (fuel : Nat) (l : List α), l.length ≤ fuel →
      (chunksOfAux fuel k l).flatten = l := by
  intro fuel
  induction fuel with
  | zero =>
    intro l hl
    match l with
    | [] => rfl
    | x :: xs => simp at hl
  | succ f ih =>
    intro l hl
    match l with
    | [] => rfl
    | x :: xs =>
      obtain ⟨m, rfl⟩ : ∃ m, k = m + 1 := ⟨k - 1, by omega⟩
      simp only [chunksOfAux, List.flatten_cons, Nat.add_sub_cancel]
      rw [ih (xs.drop m) (by
        simp only [List.length_drop]
        simp only [List.length_cons] at hl
        omega)]
      simp [List.drop_succ_cons]

theorem chunksOf_flatten {α : Type} (k : Nat) (hk : 1 ≤ k) (l : List α) :
    (chunksOf k l).flatten = l :=
  chunksOfAux_flatten k hk l.length l le_rfl

theorem chunksOfAux_mem {α : Type} (k : Nat) :
    ∀ (fuel : Nat) (l : List α), l.length ≤ fuel →
      ∀ c ∈ chunksOfAux fuel k l, c.length ≤ k ∧ ∀ x ∈ c, x ∈ l := by
  intro fuel
  induction fuel with
  | zero =>
    intro l hl c hc
    match l with
    | [] => simp [chunksOfAux] at hc
    | x :: xs => simp at hl
  | succ f ih =>
    intro l hl c hc
    match l with
    | [] => simp [chunksOfAux] at hc
    | x :: xs =>
      simp only [chunksOfAux, List.mem_cons] at hc
      rcases hc with rfl | hc
      · exact ⟨List.length_take_le _ _, fun y hy => List.take_subset _ _ hy⟩
      · have hrec := ih (xs.drop (k - 1))
          (by simp only [List.length_drop]
              simp only [List.length_cons] at hl
              omega) c hc
        exact ⟨hrec.1, fun y hy =>
          List.mem_cons_of_mem x (List.drop_subset _ _ (hrec.2 y hy))⟩

theorem chunksOf_mem {α : Type} (k : Nat) (l : List α) (c : List α)
    (hc : c ∈ chunksOf k l) : c.length ≤ k ∧ ∀ x ∈ c, x ∈ l :=
  chunksOfAux_mem k l.length l le_rfl c hc

theorem flatten_map_flatten {α : Type} (L : List (List (List α))) :
    (L.map List.flatten).flatten = L.flatten.flatten := by
  induction L with
  | nil => rfl
  | cons x L ih => simp [List.flatten_append, ih]

theorem map_const_of_mem {α β : Type} (l : List α) (fn : α → β) (c : β)
    (h : ∀ x ∈ l, fn x = c) : l.map fn = List.replicate l.length c := by
  induction l with
  | nil => rfl
  | cons x xs ih =>
    simp only [List.map_cons, List.length_cons, List.replicate_succ,
      h x (by simp), List.cons.injEq, true_and]
    exact ih fun y hy => h y (by simp [hy])

theorem list_set_self {α : Type} :
    ∀ (l : List α) (n : Nat) (a : α), l.get? n = some a → l.set n a = l := by
  intro l
  induction l with
  | nil => intro n a h; simp at h
  | cons x xs ih =>
    intro n a h
    match n with
    | 0 => simp_all
    | m + 1 =>
      simp only [List.get?] at h
      simp [List.set, ih m a h]

theorem mapEx_ok {α β : Type} (fn : α → Except MIError β) (g : α → β)
    (hg : ∀ a y, fn a = .ok y → y = g a) :
    ∀ (l : List α) (ys : List β), mapEx fn l = .ok ys → ys = l.map g := by
  intro l
  induction l with
  | nil =>
    intro ys h
    simp only [mapEx] at h
    injection h with h2
    simp [← h2]
  | cons x xs ih =>
    intro ys h
    simp only [mapEx] at h
    cases hfx : fn x with
    | error e => rw [hfx] at h; cases h
    | ok y =>
      rw [hfx] at h
      cases hrec : mapEx fn xs with
      | error e => rw [hrec] at h; cases h
      | ok ys2 =>
        rw [hrec] at h
        injection h with h2
        rw [← h2, List.map_cons, ← hg x y hfx, ← ih ys2 hrec]

theorem writeData_flatten (s : MIStore) (sizeT sizeF : Nat)
    (frames chunks : List (List Nat))
    (h : writeData s sizeT sizeF frames = .ok chunks) :
    chunks.flatten = frames.flatten := by
  cases frames with
  | nil =>
    simp only [writeData] at h
    split at h
    · cases h
    · injection h with h2
      simp [← h2]
  | cons f0 tail =>
    simp only [writeData] at h
    split at h
    · split at h
      · cases h
      · split at h
        · cases h
        · injection h with h2
          rw [← h2, flatten_map_flatten,
            chunksOf_flatten _ (le_max_left _ _)]
    · injection h with h2
      simp [← h2]

/-! ### Claim theorems -/

/-- A store with a `float64` pixel format, 12 frames of 10 pixels each and a
500-byte buffer budget, used to exercise the `WriteData` buffering branch. -/
def sC1 : MIStore := ⟨0, 12, 1, 10, .d, 500⟩

/-- Claim C1 is false as stated: with a 500-byte budget and 12 ten-element
`float64` frames (total in-memory size 1072 over budget, per-frame size 128
within it), `WriteData` emits a single chunk of 120 elements, and
120 elements times the 8-byte element size is 960 bytes, not under the
budget — the code divides the byte budget by the element count without
multiplying by the per-element byte size. -/
theorem mifile_C1_counterexample :
    writeData sC1 1072 128 (List.replicate 12 (List.replicate 10 0)) =
      .ok [List.replicate 120 0]
    ∧ ¬((List.replicate 120 (0 : Nat)).length * data_depth sC1.PixelFormat
        ≤ sC1.MaxBufferSize) :=
  ⟨by decide, by decide⟩

/-- Claim C1 amended: when the in-memory size exceeds the budget but the
first frame's size does not, and each frame has the same positive element
count `n` with `n` at most the budget, `WriteData` splits along the
outermost axis into chunks written one at a time whose concatenation is the
original data, and every chunk's flattened ELEMENT COUNT (not element count
times per-element byte size) stays within the budget. -/
theorem mifile_C1_amended (s : MIStore) (sizeT sizeF n : Nat)
    (frames : List (List Nat))
    (hT : s.MaxBufferSize < sizeT) (hF : sizeF ≤ s.MaxBufferSize)
    (hne : frames ≠ []) (hn : ∀ fr ∈ frames, fr.length = n)
    (h0 : 0 < n) (hnB : n ≤ s.MaxBufferSize) :
    ∃ chunks, writeData s sizeT sizeF frames = .ok chunks
      ∧ chunks.flatten = frames.flatten
      ∧ ∀ c ∈ chunks, c.length ≤ s.MaxBufferSize := by
  obtain ⟨f0, tail, rfl⟩ := List.exists_cons_of_ne_nil hne
  have hf0 : f0.length = n := hn f0 (by simp)
  have hdiv1 : 1 ≤ s.MaxBufferSize / n := (Nat.one_le_div_iff h0).mpr hnB
  have hkeq : max 1 (s.MaxBufferSize / n) = s.MaxBufferSize / n := by omega
  refine ⟨(chunksOf (max 1 (s.MaxBufferSize / n)) (f0 :: tail)).map List.flatten,
    ?_, ?_, ?_⟩
  · simp [writeData, hT, Nat.not_lt.mpr hF, hf0, Nat.pos_iff_ne_zero.mp h0]
  · rw [flatten_map_flatten, chunksOf_flatten _ (le_max_left _ _)]
  · intro c hc
    simp only [List.mem_map] at hc
    obtain ⟨ch, hch, rfl⟩ := hc
    obtain ⟨hlen, hmem⟩ := chunksOf_mem _ _ _ hch
    have hconst : ch.map List.length = List.replicate ch.length n :=
      map_const_of_mem ch List.length n fun x hx => hn x (hmem x hx)
    calc ch.flatten.length = (ch.map List.length).sum := List.length_flatten ch
      _ = ch.length * n := by rw [hconst]; simp [List.sum_replicate, Nat.smul_one_eq_cast]
      _ ≤ (s.MaxBufferSize / n) * n := by
          apply Nat.mul_le_mul_right
          omega
      _ ≤ s.MaxBufferSize := Nat.div_mul_le_self _ _

/-- Witness for C1 amended at a concrete input (the hypotheses hold at
`sC1` with 12 ten-element frames, oversized total, within-budget frame). -/
theorem mifile_C1_amended_witness :
    (sC1.MaxBufferSize < 1072 ∧ 128 ≤ sC1.MaxBufferSize
     ∧ 0 < 10 ∧ 10 ≤ sC1.MaxBufferSize) ∧
    ∃ chunks,
      writeData sC1 1072 128 (List.replicate 12 (List.replicate 10 0)) = .ok chunks
      ∧ chunks.flatten = (List.replicate 12 (List.replicate 10 (0 : Nat))).flatten
      ∧ ∀ c ∈ chunks, c.length ≤ sC1.MaxBufferSize :=
  ⟨by decide,
   mifile_C1_amended sC1 1072 128 10 (List.replicate 12 (List.replicate 10 0))
     (by decide) (by decide) (by decide) (by decide) (by decide) (by decide)⟩

/-- Claim C2 shows a code bug: on a store with both handles open,
`Close(read=True, write=False)` — the claim's `closeRead=true,
closeWrite=false` — closes the WRITE handle and leaves the READ handle open,
because the body gates `WriteFileHandle` on the `read` flag and
`ReadFileHandle` on the `write` flag (src lines 327-333). The claim's
expected outcome (read handle released, write handle unchanged) differs.
The already-closed part of the claim does hold: closing twice is a no-op. -/
theorem mifile_C2_bug :
    closeMI ⟨some 0, some 1⟩ true false = ⟨some 0, none⟩
    ∧ closeMI ⟨some 0, some 1⟩ true false ≠ ⟨none, some 1⟩
    ∧ closeMI ⟨none, none⟩ true true = ⟨none, none⟩ :=
  ⟨by decide, by decide, by decide⟩

/-- Claim C3 shows a code bug: merging three stores of shape `[1,1,1]` with
contents `[1]`, `[2]`, `[3]` along axis 2, the non-zero-axis loop writes the
blocks `[1], [3], [3]` — after seeding from the first input, every iteration
appends `cur_mifile.Read(...)`, and `cur_mifile` is the stale metadata-loop
variable holding the LAST input, not the current `mi_in_list[midx]` — while
the claim (and the spec's intended contract) requires `[1], [2], [3]`. -/
theorem mifile_C3_bug :
    mergeMI 2 [⟨[1, 1, 1], .B, [1]⟩, ⟨[1, 1, 1], .B, [2]⟩, ⟨[1, 1, 1], .B, [3]⟩]
      = .ok [[1], [3], [3]]
    ∧ ([[1], [3], [3]] : List (List Nat)) ≠ [[1], [2], [3]] :=
  ⟨by decide, by decide⟩

/-- Claim C6: `ValidateROI` on a 4-element ROI whose width and height are
either `-1` or non-negative behaves exactly as claimed — it fails when the
left coordinate is outside `[0, cols)` or the top outside `[0, rows)`,
resolves a `-1` width to `cols - left` and a `-1` height to `rows - top`,
fails when the resolved rectangle overflows the frame, and otherwise returns
the resolved 4-tuple. -/
theorem mifile_C6 (l t w h : Int) (rows cols : Nat)
    (hw : -1 ≤ w) (hh : -1 ≤ h) :
    ValidateROI [l, t, w, h] rows cols =
      (if l < 0 ∨ (cols : Int) ≤ l then .error (.rangeError 0)
       else if t < 0 ∨ (rows : Int) ≤ t then .error (.rangeError 1)
       else
         let w2 := if w = -1 then (cols : Int) - l else w
         let h2 := if h = -1 then (rows : Int) - t else h
         if (cols : Int) < l + w2 then .error (.rangeError 2)
         else if (rows : Int) < t + h2 then .error (.rangeError 3)
         else .ok [l, t, w2, h2]) := by
  have hw2 : (if w < 0 then (cols : Int) - l else w)
      = if w = -1 then (cols : Int) - l else w := by
    by_cases hcase : w = -1
    · simp [hcase]
    · have hnn : ¬(w < 0) := by omega
      simp [hnn, hcase]
  have hh3 : (if h < 0 then (rows : Int) - t else h)
      = if h = -1 then (rows : Int) - t else h := by
    by_cases hcase : h = -1
    · simp [hcase]
    · have hnn : ¬(h < 0) := by omega
      simp [hnn, hcase]
  have e1 : (¬(0 ≤ l ∧ l < (cols : Int))) ↔ (l < 0 ∨ (cols : Int) ≤ l) := by omega
  have e2 : (¬(0 ≤ t ∧ t < (rows : Int))) ↔ (t < 0 ∨ (rows : Int) ≤ t) := by omega
  have e3 : ∀ x : Int, (¬(x + l ≤ (cols : Int))) ↔ ((cols : Int) < l + x) :=
    fun x => by omega
  have e4 : ∀ x : Int, (¬(x + t ≤ (rows : Int))) ↔ ((rows : Int) < t + x) :=
    fun x => by omega
  simp only [ValidateROI, hw2, hh3, e1, e2, e3, e4]

/-- Witness for C6 at the spec's worked example:
`ValidateROI([5,5,-1,-1])` on shape `(10, 20)` resolves to `[5,5,15,5]`. -/
theorem mifile_C6_witness :
    ValidateROI [5, 5, -1, -1] 10 20 = .ok [5, 5, 15, 5] := by
  rw [mifile_C6 5 5 (-1) (-1) 10 20 (by decide) (by decide)]
  decide

/-- The reference-level `ValidateROI` equals the pure one with the heap cell
updated in place and the argument reference returned. -/
theorem ValidateROIref_eq (heap : List (List Int)) (r rows cols : Nat)
    (roi : List Int) (hget : heap.get? r = some roi) :
    ValidateROIref heap r rows cols =
      match ValidateROI roi rows cols with
      | .error e => .error e
      | .ok v => .ok (heap.set r v, r) := by
  rcases roi with _ | ⟨l, _ | ⟨t, _ | ⟨w, _ | ⟨h, rest⟩⟩⟩⟩ <;>
    simp only [ValidateROIref, ValidateROI, hget]
  split_ifs <;> simp [List.set_set, list_set_self _ _ _ hget]

/-- The reference-level `Validate_zRange` equals the pure one with the heap
cell updated in place and the argument reference returned. -/
theorem Validate_zRangeRef_eq (heap : List (List Int)) (r zSize : Nat)
    (zr : List Int) (hget : heap.get? r = some zr) :
    Validate_zRangeRef heap r zSize =
      match Validate_zRange (some zr) zSize with
      | .error e => .error e
      | .ok v => .ok (heap.set r v, r) := by
  rcases zr with _ | ⟨a, _ | ⟨bEnd, rest⟩⟩ <;>
    simp only [Validate_zRangeRef, Validate_zRange, hget]
  split_ifs <;> simp [List.set_set, list_set_self _ _ _ hget]

/-- Claim C9: both validators normalize the caller's list in place — on
success the returned reference is the very argument reference (not a fresh
cell), and the heap afterwards holds, in that same cell, exactly the
normalized list that the pure functional model computes. -/
theorem mifile_C9 :
    (∀ (heap : List (List Int)) (r rows cols : Nat) (roi : List Int)
        (heap2 : List (List Int)) (ret : Nat),
      heap.get? r = some roi →
      ValidateROIref heap r rows cols = .ok (heap2, ret) →
      ret = r ∧ ∃ v, ValidateROI roi rows cols = .ok v ∧ heap2 = heap.set r v)
    ∧ (∀ (heap : List (List Int)) (r zSize : Nat) (zr : List Int)
        (heap2 : List (List Int)) (ret : Nat),
      heap.get? r = some zr →
      Validate_zRangeRef heap r zSize = .ok (heap2, ret) →
      ret = r ∧ ∃ v, Validate_zRange (some zr) zSize = .ok v ∧ heap2 = heap.set r v) := by
  constructor
  · intro heap r rows cols roi heap2 ret hget hok
    rw [ValidateROIref_eq heap r rows cols roi hget] at hok
    cases hv : ValidateROI roi rows cols with
    | error e => rw [hv] at hok; cases hok
    | ok v =>
      rw [hv] at hok
      injection hok with h2
      cases h2
      exact ⟨rfl, v, rfl, rfl⟩
  · intro heap r zSize zr heap2 ret hget hok
    rw [Validate_zRangeRef_eq heap r zSize zr hget] at hok
    cases hv : Validate_zRange (some zr) zSize with
    | error e => rw [hv] at hok; cases hok
    | ok v =>
      rw [hv] at hok
      injection hok with h2
      cases h2
      exact ⟨rfl, v, rfl, rfl⟩

/-- Witness for C9 on both validators at concrete heaps: the full-frame ROI
example of the spec and the `[2,-1]` frame range. -/
theorem mifile_C9_witness :
    (0 = 0 ∧ ∃ v, ValidateROI [0, 0, -1, -1] 10 20 = .ok v
        ∧ [[0, 0, 20, 10]] = ([[0, 0, -1, -1]] : List (List Int)).set 0 v)
    ∧ (0 = 0 ∧ ∃ v, Validate_zRange (some [2, -1]) 10 = .ok v
        ∧ [[2, 10, 1]] = ([[2, -1]] : List (List Int)).set 0 v) :=
  ⟨mifile_C9.1 [[0, 0, -1, -1]] 0 10 20 [0, 0, -1, -1] [[0, 0, 20, 10]] 0
      (by decide) (by decide),
   mifile_C9.2 [[2, -1]] 0 10 [2, -1] [[2, 10, 1]] 0 (by decide) (by decide)⟩

/-- Every pixel format has a positive byte depth. -/
theorem data_depth_pos (fmt : PxFormat) : 0 < data_depth fmt := by
  cases fmt <;> decide

/-- Claim C5: on a store whose file holds at least the declared data,
`Read` with an absent frame range and absent ROI equals
`GetStack(0, frameCount)` — the general path normalizes the absent range to
`[0, frameCount, 1]`, sees step 1 and no crop, and delegates to the fast
bulk-read path, which succeeds. -/
theorem mifile_C5 (s : MIStore) (file : List Nat)
    (hlen : s.hdrSize + s.ImgNumber * s.PxPerImg * data_depth s.PixelFormat
      ≤ file.length) :
    readMI s file none none = getStack s file 0 (s.ImgNumber : Int)
    ∧ ∃ a, getStack s file 0 (s.ImgNumber : Int) = .ok a := by
  constructor
  · simp [readMI, Validate_zRange]
  · have hoff : getOffset s 0 0 0 = s.hdrSize := by simp [getOffset]
    have hcond : ¬(((file.drop s.hdrSize).take
        (s.ImgNumber * s.PxPerImg * data_depth s.PixelFormat)).length
        < s.ImgNumber * s.PxPerImg * data_depth s.PixelFormat) := by
      simp only [List.length_take, List.length_drop]
      omega
    refine ⟨⟨s.ImgNumber, s.ImgHeight, s.ImgWidth,
      decodeRun s.PixelFormat (s.ImgNumber * s.PxPerImg)
        ((file.drop s.hdrSize).take
          (s.ImgNumber * s.PxPerImg * data_depth s.PixelFormat))⟩, ?_⟩
    simp [getStack, readPixels, hoff, hcond]
    rw [if_neg (by omega)]

/-- A store with two 1-by-2 `uint8` frames, used as the C5 witness. -/
def sC5 : MIStore := ⟨0, 2, 1, 2, .B, 100⟩

/-- Witness for C5 at a concrete store and file of exactly the declared
size. -/
theorem mifile_C5_witness :
    (sC5.hdrSize + sC5.ImgNumber * sC5.PxPerImg * data_depth sC5.PixelFormat
      ≤ ([1, 2, 3, 4] : List Nat).length)
    ∧ (readMI sC5 [1, 2, 3, 4] none none
        = getStack sC5 [1, 2, 3, 4] 0 (sC5.ImgNumber : Int)
      ∧ ∃ a, getStack sC5 [1, 2, 3, 4] 0 (sC5.ImgNumber : Int) = .ok a) :=
  ⟨by decide, mifile_C5 sC5 [1, 2, 3, 4] (by decide)⟩

/-- Claim C7: (1) whenever the file yields fewer than
`px_num * PixelDepth` bytes, `_read_pixels` raises the end-of-file error
carrying the requested and the actual byte counts; (2) in particular, on a
file of exactly the declared size, a `GetStack` read extending past the
declared frame count raises that error instead of returning a short
array. -/
theorem mifile_C7 :
    (∀ (s : MIStore) (file : List Nat) (px_num seek_pos : Nat),
      file.length - seek_pos < px_num * data_depth s.PixelFormat →
      readPixels s file px_num seek_pos =
        .error (.eofError seek_pos (px_num * data_depth s.PixelFormat)
          (file.length - seek_pos)))
    ∧ (∀ (s : MIStore) (file : List Nat) (start_idx n : Nat),
      file.length = s.hdrSize + s.ImgNumber * s.PxPerImg * data_depth s.PixelFormat →
      start_idx ≤ s.ImgNumber → s.ImgNumber < start_idx + n → 0 < s.PxPerImg →
      getStack s file start_idx (n : Int) =
        .error (.eofError (getOffset s start_idx 0 0)
          (n * s.PxPerImg * data_depth s.PixelFormat)
          ((s.ImgNumber - start_idx) * s.PxPerImg * data_depth s.PixelFormat))) := by
  constructor
  · intro s file px_num seek_pos hshort
    have hclen : ((file.drop seek_pos).take
        (px_num * data_depth s.PixelFormat)).length = file.length - seek_pos := by
      simp only [List.length_take, List.length_drop]
      exact min_eq_right (by omega)
    simp only [readPixels, hclen]
    rw [if_pos (by omega)]
  · intro s file start_idx n hflen hs hn hPx
    have hdpos : 0 < data_depth s.PixelFormat := data_depth_pos _
    have hPd : 0 < s.PxPerImg * data_depth s.PixelFormat := Nat.mul_pos hPx hdpos
    have hsm := Nat.sub_mul s.ImgNumber start_idx
      (s.PxPerImg * data_depth s.PixelFormat)
    have hlt : (s.ImgNumber - start_idx) * (s.PxPerImg * data_depth s.PixelFormat)
        < n * (s.PxPerImg * data_depth s.PixelFormat) :=
      (Nat.mul_lt_mul_right hPd).mpr (by omega)
    have hoff : getOffset s start_idx 0 0
        = s.hdrSize + start_idx * s.PxPerImg * data_depth s.PixelFormat := by
      simp [getOffset]
    have hn0 : ¬((n : Int) < 0) := by omega
    have hsub : file.length
        - (s.hdrSize + start_idx * (s.PxPerImg * data_depth s.PixelFormat))
        = (s.ImgNumber - start_idx) * (s.PxPerImg * data_depth s.PixelFormat) := by
      rw [hflen]
      simp only [Nat.mul_assoc]
      omega
    simp only [getStack, readPixels, hoff, hn0, if_false, Int.toNat_natCast,
      List.length_take, List.length_drop, Nat.mul_assoc, hsub]
    rw [min_eq_right (le_of_lt hlt), if_pos hlt]

/-- A store with two 1-by-1 `uint8` frames, used as the C7 witness. -/
def sC7 : MIStore := ⟨0, 2, 1, 1, .B, 100⟩

/-- Witness for C7: a 2-byte file short of a 3-pixel request, and a
stack read of frames `[1, 3)` past the declared 2 frames. -/
theorem mifile_C7_witness :
    readPixels sC7 [5, 6] 3 1 = .error (.eofError 1 3 1)
    ∧ getStack sC7 [5, 6] 1 (2 : Int) = .error (.eofError 1 2 1) :=
  ⟨mifile_C7.1 sC7 [5, 6] 3 1 (by decide),
   mifile_C7.2 sC7 [5, 6] 1 2 (by decide) (by decide) (by decide) (by decide)⟩

theorem packPixels_flatten (fmt : PxFormat) (L : List (List Nat)) :
    (L.map (packPixels fmt)).flatten = packPixels fmt L.flatten := by
  induction L with
  | nil => rfl
  | cons x L ih => simp [packPixels_append, ih]

/-- A store declaring a 1-byte header over a single 1-by-1 `uint8` frame. -/
def sC4hdr : MIStore := ⟨1, 1, 1, 1, .B, 1000⟩

/-- Claim C4 is false as stated for stores with a nonzero declared header:
`WriteData` serializes pixel data from byte 0 of a freshly truncated file and
never writes the `hdrSize`-byte header, while `GetStack` seeks past it, so
the read-back of a just-written single-frame store with `hdr_len = 1` hits
the end-of-file error instead of reconstructing the array. -/
theorem mifile_C4_counterexample :
    writeFile sC4hdr 50 50 [[7]] = .ok [7]
    ∧ getStack sC4hdr [7] 0 (1 : Int) = .error (.eofError 1 1 0) :=
  ⟨by decide, by decide⟩

/-- Claim C4 amended: for stores with ZERO header length, any array of the
declared shape whose values fit the pixel format round-trips exactly —
writing (chunked or not), then bulk-reading the declared frame count,
reconstructs the same values with the same shape. -/
theorem mifile_C4_amended (s : MIStore) (sizeT sizeF : Nat)
    (frames : List (List Nat)) (fileBytes : List Nat)
    (h0 : s.hdrSize = 0)
    (hN : frames.length = s.ImgNumber)
    (hfr : ∀ fr ∈ frames, fr.length = s.PxPerImg)
    (hval : ∀ fr ∈ frames, ∀ v ∈ fr, v < 256 ^ data_depth s.PixelFormat)
    (hw : writeFile s sizeT sizeF frames = .ok fileBytes) :
    getStack s fileBytes 0 (s.ImgNumber : Int)
      = .ok ⟨s.ImgNumber, s.ImgHeight, s.ImgWidth, frames.flatten⟩ := by
  obtain ⟨chunks, hch, hfb⟩ : ∃ chunks, writeData s sizeT sizeF frames = .ok chunks
      ∧ fileBytes = (chunks.map (packPixels s.PixelFormat)).flatten := by
    simp only [writeFile] at hw
    cases hwd : writeData s sizeT sizeF frames with
    | error e => rw [hwd] at hw; cases hw
    | ok cs =>
      rw [hwd] at hw
      injection hw with h2
      exact ⟨cs, rfl, h2.symm⟩
  have hpack : fileBytes = packPixels s.PixelFormat frames.flatten := by
    rw [hfb, packPixels_flatten, writeData_flatten s sizeT sizeF frames chunks hch]
  have hvflat : ∀ v ∈ frames.flatten, v < 256 ^ data_depth s.PixelFormat := by
    intro v hv
    rw [List.mem_flatten] at hv
    obtain ⟨fr, hfr2, hv2⟩ := hv
    exact hval fr hfr2 v hv2
  have hlenflat : frames.flatten.length = s.ImgNumber * s.PxPerImg := by
    rw [List.length_flatten, map_const_of_mem frames List.length s.PxPerImg hfr]
    simp [List.sum_replicate, hN, Nat.mul_comm]
  have hfl : fileBytes.length
      = s.ImgNumber * s.PxPerImg * data_depth s.PixelFormat := by
    rw [hpack, packPixels_length, hlenflat]
  have hoff : getOffset s 0 0 0 = 0 := by simp [getOffset, h0]
  have hn0 : ¬((s.ImgNumber : Int) < 0) := by omega
  have hdec : decodeRun s.PixelFormat (s.ImgNumber * s.PxPerImg) fileBytes
      = frames.flatten := by
    rw [hpack, ← hlenflat, decodeRun_packPixels _ _ hvflat]
  simp only [getStack, readPixels, hoff, hn0, if_false, Int.toNat_natCast,
    List.drop_zero, ← hfl, List.take_length]
  rw [hdec, if_neg (lt_irrefl _)]

/-- A zero-header store with two 1-by-2 `uint8` frames for the C4 witness. -/
def sC4 : MIStore := ⟨0, 2, 1, 2, .B, 100⟩

/-- Witness for C4 amended: writing `[[1,2],[3,4]]` and bulk-reading two
frames returns exactly that data in the declared shape. -/
theorem mifile_C4_amended_witness :
    (sC4.hdrSize = 0 ∧ writeFile sC4 10 0 [[1, 2], [3, 4]] = .ok [1, 2, 3, 4])
    ∧ getStack sC4 [1, 2, 3, 4] 0 (sC4.ImgNumber : Int)
      = .ok ⟨sC4.ImgNumber, sC4.ImgHeight, sC4.ImgWidth,
          ([[1, 2], [3, 4]] : List (List Nat)).flatten⟩ :=
  ⟨⟨rfl, by decide⟩,
   mifile_C4_amended sC4 10 0 [[1, 2], [3, 4]] [1, 2, 3, 4] rfl (by decide)
     (by decide) (by decide) (by decide)⟩

/-- Claim C10: a successful `GetTimetraces` returns a `float64` result
(numpy's `np.empty` default) whatever the store's pixel format — so its
element type differs from the store's element type for every integer and
boolean format — and each entry is exactly the single stored pixel decoded
at the `_get_offset` position for its (frame, row, column), the conversion
to `float64` being exact for every supported format (integers of at most 32
bits, booleans, and float bit patterns). -/
theorem mifile_C10 (s : MIStore) (file : List Nat) (pxLocs : List (Nat × Nat))
    (zRange : Option (List Int)) (tr : TTRes)
    (hok : getTimetraces s file pxLocs zRange = .ok tr) :
    tr.dtype = NpDType.npFloat64
    ∧ (∀ fmt : PxFormat, fmt ≠ .f → fmt ≠ .d → data_types fmt ≠ tr.dtype)
    ∧ ∃ z0 z1 z2, Validate_zRange zRange s.ImgNumber = .ok [z0, z1, z2]
      ∧ tr.rows = pxLocs.map fun loc => (pyRange z0 z1 z2).map fun z =>
          (decodeRun s.PixelFormat 1
            ((file.drop (getOffset s z.toNat loc.1 loc.2)).take
              (1 * data_depth s.PixelFormat))).headD 0 := by
  cases hvz : Validate_zRange zRange s.ImgNumber with
  | error e =>
    simp only [getTimetraces, hvz] at hok
    cases hok
  | ok zr =>
    simp only [getTimetraces, hvz] at hok
    rcases zr with _ | ⟨z0, _ | ⟨z1, _ | ⟨z2, _ | ⟨z4, zrest⟩⟩⟩⟩
    · cases hok
    · cases hok
    · cases hok
    · dsimp only at hok
      by_cases hz2 : z2 = 0
      · rw [if_pos hz2] at hok
        cases hok
      · rw [if_neg hz2] at hok
        cases pxLocs with
        | nil => simp at hok
        | cons loc0 locs =>
          dsimp only at hok
          cases hme : mapEx
              (fun loc => mapEx
                (fun (z : Int) =>
                  if z < 0 then .error .valueError
                  else
                    match readPixels s file 1 (getOffset s z.toNat loc.1 loc.2) with
                    | .error e => .error e
                    | .ok px => .ok (px.headD 0))
                (pyRange z0 z1 z2))
              (loc0 :: locs) with
          | error e =>
            rw [hme] at hok
            simp at hok
          | ok rows =>
            rw [hme] at hok
            injection hok with h2
            subst h2
            refine ⟨rfl, ?_, z0, z1, z2, rfl, ?_⟩
            · intro fmt hf hd
              dsimp only
              cases fmt <;> first
                | exact absurd rfl hf
                | exact absurd rfl hd
                | decide
            · refine mapEx_ok _ _ ?_ (loc0 :: locs) rows hme
              intro loc row hrow
              refine mapEx_ok _ _ ?_ (pyRange z0 z1 z2) row hrow
              intro z v hv
              split at hv
              · cases hv
              · cases hrp : readPixels s file 1 (getOffset s z.toNat loc.1 loc.2) with
                | error e => rw [hrp] at hv; cases hv
                | ok px =>
                  rw [hrp] at hv
                  injection hv with h3
                  simp only [readPixels] at hrp
                  split at hrp
                  · cases hrp
                  · injection hrp with h4
                    rw [← h3, ← h4]
    · cases hok

/-- A two-frame 1-by-1 `uint8` store for the C10 witness. -/
def sC10 : MIStore := ⟨0, 2, 1, 1, .B, 100⟩

/-- The concrete `GetTimetraces` result used by the C10 witness. -/
def trC10 : TTRes := ⟨.npFloat64, [[10, 20]], true⟩

/-- Witness for C10 at a concrete store, file, and single pixel location. -/
theorem mifile_C10_witness :
    getTimetraces sC10 [10, 20] [(0, 0)] none = .ok trC10
    ∧ (trC10.dtype = NpDType.npFloat64
      ∧ (∀ fmt : PxFormat, fmt ≠ .f → fmt ≠ .d → data_types fmt ≠ trC10.dtype)
      ∧ ∃ z0 z1 z2, Validate_zRange none sC10.ImgNumber = .ok [z0, z1, z2]
        ∧ trC10.rows = ([(0, 0)] : List (Nat × Nat)).map fun loc =>
            (pyRange z0 z1 z2).map fun z =>
              (decodeRun sC10.PixelFormat 1
                ((([10, 20] : List Nat).drop (getOffset sC10 z.toNat loc.1 loc.2)).take
                  (1 * data_depth sC10.PixelFormat))).headD 0) :=
  ⟨by decide, mifile_C10 sC10 [10, 20] [(0, 0)] none trC10 (by decide)⟩

/-- One axis-0 metadata step on a non-degenerate accumulator (nonzero
height): add the frame count, then check the two non-merge axes and the
format against the accumulator. -/
theorem mergeStep_zero (S h0 w0 a b c : Nat) (f0 fc : PxFormat) (hh : h0 ≠ 0) :
    mergeStep 0 ([S, h0, w0], some f0) ([a, b, c], fc)
      = if h0 ≠ b ∨ w0 ≠ c then .error (.shapeMismatch [S + a, h0, w0] [a, b, c] 0)
        else if ¬(f0 = fc) then .error .formatMismatch
        else .ok ([S + a, h0, w0], some f0) := by
  have hr3 : List.range 3 = [0, 1, 2] := rfl
  have hcm : checkMismatch 0 [S + a, h0, w0] [a, b, c] = decide (h0 ≠ b ∨ w0 ≠ c) := by
    simp [checkMismatch, hr3, List.getD_cons_zero, List.getD_cons_succ]
  simp only [mergeStep, List.getD_cons_zero, List.getD_cons_succ, List.set]
  rw [if_neg hh, hcm]
  by_cases hsh : h0 ≠ b ∨ w0 ≠ c
  · simp [hsh]
  · simp [hsh, Option.some.injEq]

/-- The axis-0 metadata step on the literal initial accumulator
(`shape = [0,0,0]`, format `None`): the `shape[1] == 0` test sends the first
input to the initialization branch, which copies its height, width and
format. -/
theorem mergeStep_init (a b c : Nat) (fc : PxFormat) :
    mergeStep 0 ([0, 0, 0], none) ([a, b, c], fc) = .ok ([a, b, c], some fc) := by
  have hr3 : List.range 3 = [0, 1, 2] := rfl
  simp only [mergeStep, copyNonAxis, List.getD_cons_zero, List.getD_cons_succ,
    List.length_cons, List.length_nil, hr3, List.foldl_cons, List.foldl_nil]
  norm_num [List.set]

/-- If every input is a 3-element shape agreeing with the accumulator on
height, width and format would let the fold continue; any disagreement in
the remaining inputs produces a mismatch error (axis 0, nonzero height). -/
theorem mergeAccum_mismatch (rest : List (List Nat × PxFormat)) :
    ∀ (S h0 w0 : Nat) (f0 : PxFormat), h0 ≠ 0 →
    (∀ x ∈ rest, x.1.length = 3) →
    (∃ x ∈ rest, h0 ≠ x.1.getD 1 0 ∨ w0 ≠ x.1.getD 2 0 ∨ f0 ≠ x.2) →
    ∃ e, mergeAccum 0 rest ([S, h0, w0], some f0) = .error e ∧ e.isMismatch = true := by
  induction rest with
  | nil =>
    intro S h0 w0 f0 hh hlen hex
    simp at hex
  | cons x xs ih =>
    intro S h0 w0 f0 hh hlen hex
    obtain ⟨shp, fc⟩ := x
    obtain ⟨a, b, c, rfl⟩ : ∃ a b c, shp = [a, b, c] :=
      List.length_eq_three.mp (hlen (shp, fc) (by simp))
    simp only [mergeAccum]
    rw [mergeStep_zero S h0 w0 a b c f0 fc hh]
    by_cases hsh : h0 ≠ b ∨ w0 ≠ c
    · rw [if_pos hsh]
      exact ⟨_, rfl, rfl⟩
    · rw [if_neg hsh]
      push_neg at hsh
      obtain ⟨hb, hc⟩ := hsh
      by_cases hf : f0 = fc
      · rw [if_neg (by simp [hf])]
        refine ih (S + a) h0 w0 f0 hh (fun y hy => hlen y (by simp [hy])) ?_
        obtain ⟨y, hy, hdis⟩ := hex
        rcases List.mem_cons.mp hy with rfl | hy2
        · exfalso
          rcases hdis with hcase | hcase | hcase
          · exact hcase (by simp [hb])
          · exact hcase (by simp [hc])
          · exact hcase (by simp [hf])
        · exact ⟨y, hy2, hdis⟩
      · rw [if_pos hf]
        exact ⟨_, rfl, rfl⟩

/-- Claim C8 is false as stated: the metadata loop detects "first input" by
`out_meta['shape'][1] == 0`, so merging two zero-height stores whose shapes
disagree on axis 2 (`[3,0,5]` vs `[3,0,6]`) raises no error at all — the
second input re-enters the initialization branch and silently overwrites the
accumulated shape — and the merge proceeds to write both inputs. -/
theorem mifile_C8_counterexample :
    mergeMI 0 [⟨[3, 0, 5], .B, [9]⟩, ⟨[3, 0, 6], .B, [8]⟩] = .ok [[9], [8]]
    ∧ ([3, 0, 5] : List Nat).getD 2 0 ≠ ([3, 0, 6] : List Nat).getD 2 0 :=
  ⟨by decide, by decide⟩

/-- The axis-2 metadata step on the literal initial accumulator: as for
axis 0, `shape[1]` is still zero after adding the width extent, so the first
input takes the initialization branch. -/
theorem mergeStep_init_two (a b c : Nat) (fc : PxFormat) :
    mergeStep 2 ([0, 0, 0], none) ([a, b, c], fc) = .ok ([a, b, c], some fc) := by
  have hr3 : List.range 3 = [0, 1, 2] := rfl
  simp only [mergeStep, copyNonAxis, List.getD_cons_zero, List.getD_cons_succ,
    List.length_cons, List.length_nil, hr3, List.foldl_cons, List.foldl_nil]
  norm_num [List.set]

/-- One axis-2 metadata step on a non-degenerate accumulator (nonzero
height): add the width extent, then check axes 0 and 1 and the format. -/
theorem mergeStep_two (A h0 W a b c : Nat) (f0 fc : PxFormat) (hh : h0 ≠ 0) :
    mergeStep 2 ([A, h0, W], some f0) ([a, b, c], fc)
      = if A ≠ a ∨ h0 ≠ b then .error (.shapeMismatch [A, h0, W + c] [a, b, c] 2)
        else if ¬(f0 = fc) then .error .formatMismatch
        else .ok ([A, h0, W + c], some f0) := by
  have hr3 : List.range 3 = [0, 1, 2] := rfl
  have hcm : checkMismatch 2 [A, h0, W + c] [a, b, c] = decide (A ≠ a ∨ h0 ≠ b) := by
    simp [checkMismatch, hr3, List.getD_cons_zero, List.getD_cons_succ]
  simp only [mergeStep, List.getD_cons_zero, List.getD_cons_succ, List.set]
  rw [if_neg hh, hcm]
  by_cases hsh : A ≠ a ∨ h0 ≠ b
  · simp [hsh]
  · simp [hsh, Option.some.injEq]

/-- Axis-2 analogue of `mergeAccum_mismatch`: the accumulator keeps the
first input's frame count and height on the non-merge axes, so any later
disagreement there (or on format) errors out. -/
theorem mergeAccum_mismatch_two (rest : List (List Nat × PxFormat)) :
    ∀ (A h0 W : Nat) (f0 : PxFormat), h0 ≠ 0 →
    (∀ x ∈ rest, x.1.length = 3) →
    (∃ x ∈ rest, A ≠ x.1.getD 0 0 ∨ h0 ≠ x.1.getD 1 0 ∨ f0 ≠ x.2) →
    ∃ e, mergeAccum 2 rest ([A, h0, W], some f0) = .error e ∧ e.isMismatch = true := by
  induction rest with
  | nil =>
    intro A h0 W f0 hh hlen hex
    simp at hex
  | cons x xs ih =>
    intro A h0 W f0 hh hlen hex
    obtain ⟨shp, fc⟩ := x
    obtain ⟨a, b, c, rfl⟩ : ∃ a b c, shp = [a, b, c] :=
      List.length_eq_three.mp (hlen (shp, fc) (by simp))
    simp only [mergeAccum]
    rw [mergeStep_two A h0 W a b c f0 fc hh]
    by_cases hsh : A ≠ a ∨ h0 ≠ b
    · rw [if_pos hsh]
      exact ⟨_, rfl, rfl⟩
    · rw [if_neg hsh]
      push_neg at hsh
      obtain ⟨ha, hb⟩ := hsh
      by_cases hf : f0 = fc
      · rw [if_neg (by simp [hf])]
        refine ih A h0 (W + c) f0 hh (fun y hy => hlen y (by simp [hy])) ?_
        obtain ⟨y, hy, hdis⟩ := hex
        rcases List.mem_cons.mp hy with rfl | hy2
        · exfalso
          rcases hdis with hcase | hcase | hcase
          · exact hcase (by simp [ha])
          · exact hcase (by simp [hb])
          · exact hcase (by simp [hf])
        · exact ⟨y, hy2, hdis⟩
      · rw [if_pos hf]
        exact ⟨_, rfl, rfl⟩

/-- The axis-1 metadata step on the literal initial accumulator for an input
of nonzero height: adding the height along the merge axis makes `shape[1]`
nonzero at once, so even the FIRST input lands in the checking branch and is
compared against the zero-initialized accumulator — the step always raises a
shape- or format-mismatch error. -/
theorem mergeStep_one_init (a b c : Nat) (fc : PxFormat) (hb : b ≠ 0) :
    ∃ e, mergeStep 1 ([0, 0, 0], none) ([a, b, c], fc) = .error e
      ∧ e.isMismatch = true := by
  have hr3 : List.range 3 = [0, 1, 2] := rfl
  have hcm : checkMismatch 1 [0, b, 0] [a, b, c]
      = decide ((0 : Nat) ≠ a ∨ (0 : Nat) ≠ c) := by
    simp [checkMismatch, hr3, List.getD_cons_zero, List.getD_cons_succ]
  simp only [mergeStep, List.getD_cons_zero, List.getD_cons_succ, List.set,
    Nat.zero_add]
  rw [if_neg hb, hcm]
  by_cases hac : (0 : Nat) ≠ a ∨ (0 : Nat) ≠ c
  · refine ⟨.shapeMismatch [0, b, 0] [a, b, c] 1, ?_, rfl⟩
    simp [hac]
  · refine ⟨.formatMismatch, ?_, rfl⟩
    rw [if_neg (by simp [hac]), if_pos (by simp)]

/-- An axis-1 merge whose first input has nonzero height always fails during
metadata accumulation, with a mismatch error. -/
theorem mergeAccum_one (x : List Nat × PxFormat) (xs : List (List Nat × PxFormat))
    (hx3 : x.1.length = 3) (hb : x.1.getD 1 0 ≠ 0) :
    ∃ e, mergeAccum 1 (x :: xs) ([0, 0, 0], none) = .error e
      ∧ e.isMismatch = true := by
  obtain ⟨shp, fc⟩ := x
  obtain ⟨a, b, c, rfl⟩ : ∃ a b c, shp = [a, b, c] := List.length_eq_three.mp hx3
  obtain ⟨e, he, hm⟩ := mergeStep_one_init a b c fc (by simpa using hb)
  refine ⟨e, ?_, hm⟩
  simp only [mergeAccum, he]

/-- Claim C8 amended: for every merge along axis 0, 1 or 2 of two or more
input stores whose FIRST input has nonzero height, if any later input
disagrees with the first input — equivalently with the accumulated output
shape, whose non-merge-axis extents remain the first input's — on an axis
other than the merge axis, or disagrees on pixel format, the merge fails
with a shape- or format-mismatch error during metadata accumulation, before
any data block is produced (`mergeMI` returns the error instead of a write
list). For axis 1 the accumulation fails with a mismatch error on the very
first input (its height lands on `shape[1]` and is compared against the
zero-initialized accumulator), which subsumes the claimed implication. -/
theorem mifile_C8_amended (axis : Nat) (first : MIInput) (rest : List MIInput)
    (haxis : axis < 3)
    (hlen : ∀ x ∈ first :: rest, x.shape.length = 3)
    (hh : first.shape.getD 1 0 ≠ 0)
    (hex : ∃ x ∈ rest,
      (∃ ax ∈ ([0, 1, 2] : List Nat), ax ≠ axis
        ∧ first.shape.getD ax 0 ≠ x.shape.getD ax 0)
      ∨ first.fmt ≠ x.fmt) :
    ∃ e, mergeMI axis (first :: rest) = .error e ∧ e.isMismatch = true := by
  obtain ⟨a, b, c, hsh⟩ : ∃ a b c, first.shape = [a, b, c] :=
    List.length_eq_three.mp (hlen first (by simp))
  have hb : b ≠ 0 := by
    rw [hsh] at hh
    simpa using hh
  have hlen2 : ∀ y ∈ rest.map (fun i => (i.shape, i.fmt)), y.1.length = 3 := by
    intro y hy
    rw [List.mem_map] at hy
    obtain ⟨i, hi, rfl⟩ := hy
    exact hlen i (by simp [hi])
  have hmeta : ∃ e, mergeMeta axis ((first :: rest).map fun i => (i.shape, i.fmt))
      = .error e ∧ e.isMismatch = true := by
    interval_cases axis
    · simp only [mergeMeta, List.map_cons, mergeAccum, hsh, mergeStep_init]
      refine mergeAccum_mismatch (rest.map fun i => (i.shape, i.fmt)) a b c
        first.fmt hb hlen2 ?_
      obtain ⟨x, hx, hdis⟩ := hex
      refine ⟨(x.shape, x.fmt), List.mem_map_of_mem _ hx, ?_⟩
      rcases hdis with ⟨ax, haxmem, hax, hdisax⟩ | hfmt
      · rw [hsh] at hdisax
        have hax012 : ax = 0 ∨ ax = 1 ∨ ax = 2 := by simpa using haxmem
        rcases hax012 with rfl | rfl | rfl
        · exact absurd rfl hax
        · left
          simpa using hdisax
        · right; left
          simpa using hdisax
      · right; right
        exact hfmt
    · simp only [mergeMeta, List.map_cons]
      exact mergeAccum_one (first.shape, first.fmt) (rest.map fun i => (i.shape, i.fmt))
        (hlen first (by simp)) hh
    · simp only [mergeMeta, List.map_cons, mergeAccum, hsh, mergeStep_init_two]
      refine mergeAccum_mismatch_two (rest.map fun i => (i.shape, i.fmt)) a b c
        first.fmt hb hlen2 ?_
      obtain ⟨x, hx, hdis⟩ := hex
      refine ⟨(x.shape, x.fmt), List.mem_map_of_mem _ hx, ?_⟩
      rcases hdis with ⟨ax, haxmem, hax, hdisax⟩ | hfmt
      · rw [hsh] at hdisax
        have hax012 : ax = 0 ∨ ax = 1 ∨ ax = 2 := by simpa using haxmem
        rcases hax012 with rfl | rfl | rfl
        · left
          simpa using hdisax
        · right; left
          simpa using hdisax
        · exact absurd rfl hax
      · right; right
        exact hfmt
  obtain ⟨e, he, hm⟩ := hmeta
  refine ⟨e, ?_, hm⟩
  simp only [mergeMI, he]

/-- Witness for C8 amended: an axis-0 merge of two inputs of height 2
disagreeing on the width axis produces a mismatch error. -/
theorem mifile_C8_amended_witness :
    ((0 : Nat) < 3 ∧ (⟨[3, 2, 5], .B, [9]⟩ : MIInput).shape.getD 1 0 ≠ 0)
    ∧ ∃ e, mergeMI 0 [⟨[3, 2, 5], .B, [9]⟩, ⟨[3, 2, 6], .B, [8]⟩] = .error e
        ∧ e.isMismatch = true :=
  ⟨by decide,
   mifile_C8_amended 0 ⟨[3, 2, 5], .B, [9]⟩ [⟨[3, 2, 6], .B, [8]⟩]
     (by decide) (by decide) (by decide) (by decide)⟩

end MIfile
